import Mathlib

/-!
Shallow embedding of the categorical 3D-image library
(`src/imaging/categorical.py` and `src/imaging/adjacency.py`).

A 3D numpy array of element type α is modelled as a `Vol α`: the three
dimension sizes together with a total lookup function on coordinates.  The
rank-3 requirement of the Python code is captured by the type itself; all
other numpy-level operations (elementwise `==`, `np.any`, `np.sum`, `np.min`,
`np.max`, `scipy.ndimage.binary_dilation`) are embedded as executable
functions below, each next to a comment naming the source construct.
-/

/-- A 3-dimensional array: dimension sizes `(h, w, d)` plus a lookup
function.  Only indices `i < h`, `j < w`, `k < d` are meaningful. -/
structure Vol (α : Type) where
  h : Nat
  w : Nat
  d : Nat
  val : Nat → Nat → Nat → α

/-- `ndarray.size`: the total number of elements. -/
def Vol.size {α : Type} (v : Vol α) : Nat := v.h * v.w * v.d

/-- All in-bounds coordinate triples of an `h × w × d` volume, in row-major
order (the order numpy iterates elements). -/
def allPositions (h w d : Nat) : List (Nat × Nat × Nat) :=
  (List.range h).flatMap (fun i =>
    (List.range w).flatMap (fun j =>
      (List.range d).map (fun k => (i, j, k))))

/-- The element list of a volume (numpy array flattening). -/
def Vol.valsList {α : Type} (v : Vol α) : List α :=
  (allPositions v.h v.w v.d).map (fun p => v.val p.1 p.2.1 p.2.2)

/-- `np.any` over a boolean array of shape `(h, w, d)`. -/
def anyVox (h w d : Nat) (m : Nat → Nat → Nat → Bool) : Bool :=
  (allPositions h w d).any (fun p => m p.1 p.2.1 p.2.2)

/-- `int(np.sum(mask))` for a boolean array: the number of `True` cells. -/
def countVox (h w d : Nat) (m : Nat → Nat → Nat → Bool) : Nat :=
  (allPositions h w d).countP (fun p => m p.1 p.2.1 p.2.2)

/-- `np.min` over the (nonempty) element list of an integer array. -/
def npMin : List Int → Int
  | [] => 0
  | x :: xs => xs.foldl min x

/-- `np.max` over the (nonempty) element list of an integer array. -/
def npMax : List Int → Int
  | [] => 0
  | x :: xs => xs.foldl max x

/-- The distinct error conditions the library raises (each a distinct
`ValueError` message in the Python source; the spec names them as below). -/
inductive VolError where
  | invalidShape
  | emptyVolume
  | invalidCategories
  | negativeValue
  | valueOutOfRange
  | unknownCategory
  | missingMapping
  deriving DecidableEq

/-- `len(categories) != len(set(categories))`: whether the category list
contains a duplicate name. -/
def hasDuplicates (cats : List String) : Bool :=
  cats.dedup.length != cats.length

/-- The derived name-to-code mapping
`{cat: idx for idx, cat in enumerate(categories)}`.  Validation guarantees
the names are duplicate-free before this dictionary is ever consulted, so a
known name maps to its unique position in the list. -/
def categoryToIndex (cats : List String) (c : String) : Option Nat :=
  if c ∈ cats then some (cats.indexOf c) else none

/-- The validation steps of `CategoricalImage.__post_init__`, in source
order.  The rank-3 check (`data.ndim != 3`, error `InvalidShape`) is
satisfied by construction of `Vol`. -/
def validateImage (data : Vol Int) (categories : List String) : Except VolError Unit :=
  if data.size = 0 then .error .emptyVolume
  else if categories.length = 0 then .error .invalidCategories
  else if hasDuplicates categories then .error .invalidCategories
  else if npMin data.valsList < 0 then .error .negativeValue
  else if (categories.length : Int) ≤ npMax data.valsList then .error .valueOutOfRange
  else .ok ()

/-- A validated categorical image: integer-coded voxel data plus the ordered
category vocabulary (the two stored fields of `CategoricalImage`). -/
structure CategoricalImage where
  vol : Vol Int
  categories : List String

/-- `CategoricalImage(data, categories)`: run `__post_init__` validation,
then store the data (the `astype(np.int32, copy=True)` defensive copy is a
value-preserving fresh allocation; aliasing is modelled separately by the
heap model below) and the categories. -/
def mkImage (data : Vol Int) (categories : List String) : Except VolError CategoricalImage :=
  match validateImage data categories with
  | .error e => .error e
  | .ok _ => .ok ⟨data, categories⟩

/-- A volume is validly constructed when the constructor accepts exactly it. -/
def Valid (img : CategoricalImage) : Prop :=
  mkImage img.vol img.categories = .ok img

/-- `CategoricalImage.shape`: the `(h, w, d)` triple. -/
def CategoricalImage.shape (img : CategoricalImage) : Nat × Nat × Nat :=
  (img.vol.h, img.vol.w, img.vol.d)

/-- The elementwise comparison `data == value`: the boolean occupancy array
of the voxels carrying integer code `value`. -/
def codeMask (data : Vol Int) (value : Nat) : Nat → Nat → Nat → Bool :=
  fun i j k => data.val i j k == (value : Int)

/-- `CategoricalImage.has_category`: `False` for an unknown name, otherwise
`bool(np.any(self.data == category_index))`. -/
def CategoricalImage.has_category (img : CategoricalImage) (category : String) : Bool :=
  match categoryToIndex img.categories category with
  | none => false
  | some idx => anyVox img.vol.h img.vol.w img.vol.d (codeMask img.vol idx)

/-- `CategoricalImage.get_mask`: error `UnknownCategory` for an unknown name,
otherwise the boolean array `self.data == category_index`. -/
def CategoricalImage.get_mask (img : CategoricalImage) (category : String) :
    Except VolError (Nat → Nat → Nat → Bool) :=
  match categoryToIndex img.categories category with
  | none => .error .unknownCategory
  | some idx => .ok (codeMask img.vol idx)

/-- `CategoricalImage.count_voxels`: error `UnknownCategory` for an unknown
name, otherwise `int(np.sum(self.data == category_index))`. -/
def CategoricalImage.count_voxels (img : CategoricalImage) (category : String) :
    Except VolError Nat :=
  match categoryToIndex img.categories category with
  | none => .error .unknownCategory
  | some idx => .ok (countVox img.vol.h img.vol.w img.vol.d (codeMask img.vol idx))

/-- `CategoricalImage.get_category_stats`:
`{cat: self.count_voxels(cat) for cat in self.categories}`.  For a
vocabulary name `count_voxels` cannot fail; the `0` fallback is unreachable. -/
def CategoricalImage.get_category_stats (img : CategoricalImage) : List (String × Nat) :=
  img.categories.map (fun c =>
    (c, match img.count_voxels c with
        | .ok n => n
        | .error _ => 0))

/-- `CategoricalImage.get_labels`: the loop
`for idx, category: labels[self.data == idx] = category` writes
`categories[data[p]]` at every position `p`, since each validated voxel
value matches exactly one `idx`.  The `""` fallback is unreachable for
validated data. -/
def CategoricalImage.get_labels (img : CategoricalImage) : Vol String :=
  ⟨img.vol.h, img.vol.w, img.vol.d,
   fun i j k => img.categories.getD (img.vol.val i j k).toNat ""⟩

/-- Insert a string into a list, placing it before the first strictly larger
element (ascending insertion step of the sort used to model `np.unique`).
String order is `String.lt`, lexicographic comparison of the underlying
character lists. -/
def insertAsc (x : String) : List String → List String
  | [] => [x]
  | y :: ys => if x.data < y.data then x :: y :: ys else y :: insertAsc x ys

/-- Ascending insertion sort on strings. -/
def sortAsc : List String → List String
  | [] => []
  | x :: xs => insertAsc x (sortAsc xs)

/-- `np.unique(labels)`: the distinct values, in ascending (lexicographic)
order. -/
def npUnique (labels : Vol String) : List String :=
  sortAsc labels.valsList.dedup

/-- `CategoricalImage.from_labels`: rank-3 is by the type (`InvalidShape`
otherwise); empty input is `EmptyVolume`; then the distinct labels are
collected sorted via `np.unique` and each voxel is encoded by the loop
`data[labels == category] = idx`, i.e. as the (unique) index of its label in
the duplicate-free vocabulary; finally the ordinary constructor runs. -/
def CategoricalImage.from_labels (labels : Vol String) : Except VolError CategoricalImage :=
  if labels.size = 0 then .error .emptyVolume
  else
    let categories := npUnique labels
    let data : Vol Int :=
      ⟨labels.h, labels.w, labels.d,
       fun i j k => (categories.indexOf (labels.val i j k) : Int)⟩
    mkImage data categories

/-- Whether two indices along one axis differ by at most 1 (Chebyshev
distance at most 1 on that axis). -/
def near (a b : Nat) : Bool :=
  a ≤ b + 1 && b ≤ a + 1

/-- `ndimage.binary_dilation(mask, structure=generate_binary_structure(3, 3))`:
the structuring element is the full 3×3×3 cube (centre included), so an
output voxel is set exactly when some in-bounds voxel at Chebyshev distance
at most 1 (itself included) is set in the input.  No wrap-around:
out-of-bounds neighbours contribute the border value `False`. -/
def binary_dilation (h w d : Nat) (m : Nat → Nat → Nat → Bool) :
    Nat → Nat → Nat → Bool :=
  fun i j k =>
    anyVox h w d (fun i2 j2 k2 =>
      near i i2 && near j j2 && near k k2 && m i2 j2 k2)

/-- `bool(np.any(dilated_mask1 & mask2))`: the shared tail of
`check_category_adjacency` after the masks are built. -/
def adjacencyOverlap (h w d : Nat) (mask1 mask2 : Nat → Nat → Nat → Bool) : Bool :=
  anyVox h w d (fun i j k => binary_dilation h w d mask1 i j k && mask2 i j k)

/-- The `image: CategoricalImage | np.ndarray` union parameter of
`check_category_adjacency`, distinguished in the source by `isinstance`. -/
inductive ImageInput where
  | structured (image : CategoricalImage)
  | raw (image : Vol Int)

/-- The reverse mapping
`{name: value for value, name in category_map.items()}` of the legacy
path: dictionary insertion order is item order and a later item with the
same name overwrites an earlier one, so a lookup finds the last matching
item. -/
def revLookup (category_map : List (Nat × String)) (c : String) : Option Nat :=
  (category_map.reverse.find? (fun p => p.2 == c)).map (fun p => p.1)

/-- `check_category_adjacency(image, category1, category2, category_map)`.
Structured path: build both masks via `get_mask`, short-circuit `False` when
either is empty, else dilate mask1 and test overlap with mask2.  Legacy raw
path: `category_map` is required (`MissingMapping`), rank 3 is by the type,
empty data is `EmptyVolume`, the names must occur in the reverse mapping
(`UnknownCategory`), then the same short-circuit and dilation tail runs. -/
def check_category_adjacency (image : ImageInput)
    (category1 category2 : String)
    (category_map : Option (List (Nat × String))) : Except VolError Bool :=
  match image with
  | .structured img =>
      match img.get_mask category1, img.get_mask category2 with
      | .error e, _ => .error e
      | .ok _, .error e => .error e
      | .ok mask1, .ok mask2 =>
          let h := img.vol.h
          let w := img.vol.w
          let d := img.vol.d
          if !anyVox h w d mask1 || !anyVox h w d mask2 then .ok false
          else .ok (adjacencyOverlap h w d mask1 mask2)
  | .raw data =>
      match category_map with
      | none => .error .missingMapping
      | some cmap =>
          if data.size = 0 then .error .emptyVolume
          else
            match revLookup cmap category1 with
            | none => .error .unknownCategory
            | some value1 =>
                match revLookup cmap category2 with
                | none => .error .unknownCategory
                | some value2 =>
                    let mask1 := codeMask data value1
                    let mask2 := codeMask data value2
                    if !anyVox data.h data.w data.d mask1
                        || !anyVox data.h data.w data.d mask2 then .ok false
                    else .ok (adjacencyOverlap data.h data.w data.d mask1 mask2)

/-- `check_green_touches_red`: the named specialization. -/
def check_green_touches_red (image : ImageInput)
    (category_map : Option (List (Nat × String))) : Except VolError Bool :=
  check_category_adjacency image "green" "red" category_map

/-- A coordinate triple lies inside an `h × w × d` volume. -/
def inBounds (h w d : Nat) (p : Nat × Nat × Nat) : Prop :=
  p.1 < h ∧ p.2.1 < w ∧ p.2.2 < d

/-- 26-connectivity: two voxel positions are neighbours when they are
distinct and differ by at most 1 on each of the three coordinate axes. -/
def neighbor26 (p q : Nat × Nat × Nat) : Prop :=
  p ≠ q ∧ near p.1 q.1 = true ∧ near p.2.1 q.2.1 = true ∧ near p.2.2 q.2.2 = true

/-! ### Basic lemmas about the embedding -/

theorem mem_allPositions {h w d : Nat} {p : Nat × Nat × Nat} :
    p ∈ allPositions h w d ↔ p.1 < h ∧ p.2.1 < w ∧ p.2.2 < d := by
  obtain ⟨i, j, k⟩ := p
  simp [allPositions, List.mem_flatMap, List.mem_map, List.mem_range, Prod.ext_iff]
  constructor
  · rintro ⟨a, ha, b, hb, c, hc, h1, h2, h3⟩
    subst h1; subst h2; subst h3; exact ⟨ha, hb, hc⟩
  · rintro ⟨ha, hb, hc⟩
    exact ⟨i, ha, j, hb, k, hc, rfl, rfl, rfl⟩

theorem anyVox_eq_true_iff {h w d : Nat} {m : Nat → Nat → Nat → Bool} :
    anyVox h w d m = true ↔
      ∃ i j k, i < h ∧ j < w ∧ k < d ∧ m i j k = true := by
  unfold anyVox
  rw [List.any_eq_true]
  constructor
  · rintro ⟨⟨i, j, k⟩, hmem, hm⟩
    obtain ⟨hi, hj, hk⟩ := mem_allPositions.mp hmem
    exact ⟨i, j, k, hi, hj, hk, hm⟩
  · rintro ⟨i, j, k, hi, hj, hk, hm⟩
    exact ⟨(i, j, k), mem_allPositions.mpr ⟨hi, hj, hk⟩, hm⟩

theorem anyVox_eq_false_iff {h w d : Nat} {m : Nat → Nat → Nat → Bool} :
    anyVox h w d m = false ↔
      ∀ i j k, i < h → j < w → k < d → m i j k = false := by
  unfold anyVox
  rw [List.any_eq_false]
  constructor
  · intro hall i j k hi hj hk
    have := hall (i, j, k) (mem_allPositions.mpr ⟨hi, hj, hk⟩)
    exact Bool.eq_false_iff.mpr this
  · rintro hall ⟨i, j, k⟩ hmem
    obtain ⟨hi, hj, hk⟩ := mem_allPositions.mp hmem
    exact Bool.eq_false_iff.mp (hall i j k hi hj hk)

theorem countVox_eq_zero_iff {h w d : Nat} {m : Nat → Nat → Nat → Bool} :
    countVox h w d m = 0 ↔ anyVox h w d m = false := by
  unfold countVox anyVox
  rw [List.countP_eq_zero, List.any_eq_false]

theorem mem_valsList {α : Type} {v : Vol α} {x : α} :
    x ∈ v.valsList ↔
      ∃ i j k, i < v.h ∧ j < v.w ∧ k < v.d ∧ v.val i j k = x := by
  unfold Vol.valsList
  rw [List.mem_map]
  constructor
  · rintro ⟨⟨i, j, k⟩, hmem, hval⟩
    obtain ⟨hi, hj, hk⟩ := mem_allPositions.mp hmem
    exact ⟨i, j, k, hi, hj, hk, hval⟩
  · rintro ⟨i, j, k, hi, hj, hk, hval⟩
    exact ⟨(i, j, k), mem_allPositions.mpr ⟨hi, hj, hk⟩, hval⟩

theorem foldl_min_le_init (l : List Int) : ∀ a : Int, l.foldl min a ≤ a := by
  induction l with
  | nil => intro a; exact le_refl a
  | cons x xs ih => intro a; exact le_trans (ih (min a x)) (min_le_left a x)

theorem foldl_min_le_mem (l : List Int) (x : Int) :
    x ∈ l → ∀ a : Int, l.foldl min a ≤ x := by
  induction l with
  | nil => intro hx; cases hx
  | cons y ys ih =>
    intro hx a
    rcases List.mem_cons.mp hx with hxy | hx2
    · subst hxy
      exact le_trans (foldl_min_le_init ys (min a x)) (min_le_right a x)
    · exact ih hx2 (min a y)

theorem le_foldl_min {c : Int} (l : List Int) :
    ∀ a : Int, c ≤ a → (∀ x ∈ l, c ≤ x) → c ≤ l.foldl min a := by
  induction l with
  | nil => intro a ha _; exact ha
  | cons y ys ih =>
    intro a ha hall
    exact ih (min a y) (le_min ha (hall y (List.mem_cons_self y ys)))
      (fun x hx => hall x (List.mem_cons_of_mem y hx))

theorem init_le_foldl_max (l : List Int) : ∀ a : Int, a ≤ l.foldl max a := by
  induction l with
  | nil => intro a; exact le_refl a
  | cons x xs ih => intro a; exact le_trans (le_max_left a x) (ih (max a x))

theorem mem_le_foldl_max (l : List Int) (x : Int) :
    x ∈ l → ∀ a : Int, x ≤ l.foldl max a := by
  induction l with
  | nil => intro hx; cases hx
  | cons y ys ih =>
    intro hx a
    rcases List.mem_cons.mp hx with hxy | hx2
    · subst hxy
      exact le_trans (le_max_right a x) (init_le_foldl_max ys (max a x))
    · exact ih hx2 (max a y)

theorem foldl_max_le {c : Int} (l : List Int) :
    ∀ a : Int, a ≤ c → (∀ x ∈ l, x ≤ c) → l.foldl max a ≤ c := by
  induction l with
  | nil => intro a ha _; exact ha
  | cons y ys ih =>
    intro a ha hall
    exact ih (max a y) (max_le ha (hall y (List.mem_cons_self y ys)))
      (fun x hx => hall x (List.mem_cons_of_mem y hx))

theorem npMin_le_mem {l : List Int} {x : Int} (hx : x ∈ l) : npMin l ≤ x := by
  cases l with
  | nil => cases hx
  | cons y ys =>
    rcases List.mem_cons.mp hx with hxy | hx2
    · subst hxy; exact foldl_min_le_init ys x
    · exact foldl_min_le_mem ys x hx2 y

theorem le_npMin {c : Int} {l : List Int} (hne : l ≠ [])
    (hall : ∀ x ∈ l, c ≤ x) : c ≤ npMin l := by
  cases l with
  | nil => exact absurd rfl hne
  | cons y ys =>
    exact le_foldl_min ys y (hall y (List.mem_cons_self y ys))
      (fun x hx => hall x (List.mem_cons_of_mem y hx))

theorem mem_le_npMax {l : List Int} {x : Int} (hx : x ∈ l) : x ≤ npMax l := by
  cases l with
  | nil => cases hx
  | cons y ys =>
    rcases List.mem_cons.mp hx with hxy | hx2
    · subst hxy; exact init_le_foldl_max ys x
    · exact mem_le_foldl_max ys x hx2 y

theorem npMax_le {c : Int} {l : List Int} (hne : l ≠ [])
    (hall : ∀ x ∈ l, x ≤ c) : npMax l ≤ c := by
  cases l with
  | nil => exact absurd rfl hne
  | cons y ys =>
    exact foldl_max_le ys y (hall y (List.mem_cons_self y ys))
      (fun x hx => hall x (List.mem_cons_of_mem y hx))

theorem hasDuplicates_eq_false_iff {cats : List String} :
    hasDuplicates cats = false ↔ cats.Nodup := by
  unfold hasDuplicates
  rw [bne_eq_false_iff_eq]
  constructor
  · intro hlen
    have hd : cats.dedup = cats := cats.dedup_sublist.eq_of_length hlen
    rw [← hd]
    exact cats.nodup_dedup
  · intro hnd
    rw [List.dedup_eq_self.mpr hnd]

theorem categoryToIndex_eq_some {cats : List String} {c : String} {i : Nat}
    (hsome : categoryToIndex cats c = some i) :
    c ∈ cats ∧ i = cats.indexOf c := by
  by_cases hc : c ∈ cats
  · simp [categoryToIndex, hc] at hsome
    exact ⟨hc, hsome.symm⟩
  · simp [categoryToIndex, hc] at hsome

theorem categoryToIndex_get {cats : List String} {c : String} {i : Nat}
    (hsome : categoryToIndex cats c = some i) :
    ∃ hlt : i < cats.length, cats.get ⟨i, hlt⟩ = c := by
  obtain ⟨hc, hi⟩ := categoryToIndex_eq_some hsome
  subst hi
  exact ⟨List.indexOf_lt_length.mpr hc, List.indexOf_get _⟩

theorem categoryToIndex_inj {cats : List String} {c1 c2 : String} {i1 i2 : Nat}
    (h1 : categoryToIndex cats c1 = some i1)
    (h2 : categoryToIndex cats c2 = some i2)
    (hne : c1 ≠ c2) : i1 ≠ i2 := by
  obtain ⟨hl1, hg1⟩ := categoryToIndex_get h1
  obtain ⟨hl2, hg2⟩ := categoryToIndex_get h2
  intro he
  subst he
  exact hne (by rw [← hg1, ← hg2])

theorem categoryToIndex_isSome_iff {cats : List String} {c : String} :
    (categoryToIndex cats c).isSome = true ↔ c ∈ cats := by
  by_cases hc : c ∈ cats <;> simp [categoryToIndex, hc]

theorem validateImage_ok_spec {data : Vol Int} {cats : List String}
    (hok : validateImage data cats = Except.ok ()) :
    data.size ≠ 0 ∧ cats ≠ [] ∧ cats.Nodup ∧
      ∀ x ∈ data.valsList, 0 ≤ x ∧ x < (cats.length : Int) := by
  unfold validateImage at hok
  split at hok
  next => exact Except.noConfusion hok
  next h0 =>
  split at hok
  next => exact Except.noConfusion hok
  next h1 =>
  split at hok
  next => exact Except.noConfusion hok
  next h2 =>
  split at hok
  next => exact Except.noConfusion hok
  next h3 =>
  split at hok
  next => exact Except.noConfusion hok
  next h4 =>
  refine ⟨h0, ?_, ?_, ?_⟩
  · intro hnil
    exact h1 (by rw [hnil]; rfl)
  · have h2f : hasDuplicates cats = false := by
      revert h2; cases hasDuplicates cats <;> simp
    exact hasDuplicates_eq_false_iff.mp h2f
  · intro x hx
    constructor
    · exact le_trans (not_lt.mp h3) (npMin_le_mem hx)
    · exact lt_of_le_of_lt (mem_le_npMax hx) (not_le.mp h4)

theorem mkImage_ok_validate {data : Vol Int} {cats : List String}
    {img : CategoricalImage} (hok : mkImage data cats = Except.ok img) :
    validateImage data cats = Except.ok () ∧ img = ⟨data, cats⟩ := by
  unfold mkImage at hok
  split at hok
  next => exact Except.noConfusion hok
  next u heq =>
    cases u
    exact ⟨heq, (Except.ok.injEq _ _ ▸ hok).symm⟩

theorem size_ne_zero_pos {α : Type} {v : Vol α} (hne : v.size ≠ 0) :
    0 < v.h ∧ 0 < v.w ∧ 0 < v.d := by
  unfold Vol.size at hne
  rcases Nat.mul_ne_zero_iff.mp hne with ⟨hhw, hd⟩
  rcases Nat.mul_ne_zero_iff.mp hhw with ⟨hh, hw⟩
  exact ⟨Nat.pos_of_ne_zero hh, Nat.pos_of_ne_zero hw, Nat.pos_of_ne_zero hd⟩

theorem Valid.spec {img : CategoricalImage} (hv : Valid img) :
    0 < img.vol.h ∧ 0 < img.vol.w ∧ 0 < img.vol.d ∧
      img.categories ≠ [] ∧ img.categories.Nodup ∧
      ∀ i j k, i < img.vol.h → j < img.vol.w → k < img.vol.d →
        0 ≤ img.vol.val i j k ∧
          img.vol.val i j k < (img.categories.length : Int) := by
  obtain ⟨hval, _⟩ := mkImage_ok_validate hv
  obtain ⟨hsz, hnil, hnd, hrange⟩ := validateImage_ok_spec hval
  obtain ⟨hh, hw, hd⟩ := size_ne_zero_pos hsz
  refine ⟨hh, hw, hd, hnil, hnd, ?_⟩
  intro i j k hi hj hk
  exact hrange _ (mem_valsList.mpr ⟨i, j, k, hi, hj, hk, rfl⟩)

theorem near_symm (a b : Nat) : near a b = near b a := by
  unfold near
  rw [Bool.and_comm]

theorem near_refl (a : Nat) : near a a = true := by
  simp [near]

theorem boolEqOfIff {a b : Bool} (hab : a = true ↔ b = true) : a = b := by
  cases a <;> cases b <;> simp_all

theorem binary_dilation_eq_true_iff {h w d : Nat} {m : Nat → Nat → Nat → Bool}
    {i j k : Nat} :
    binary_dilation h w d m i j k = true ↔
      ∃ i2 j2 k2, i2 < h ∧ j2 < w ∧ k2 < d ∧
        near i i2 = true ∧ near j j2 = true ∧ near k k2 = true ∧
        m i2 j2 k2 = true := by
  unfold binary_dilation
  rw [anyVox_eq_true_iff]
  constructor
  · rintro ⟨i2, j2, k2, hi, hj, hk, hb⟩
    simp only [Bool.and_eq_true] at hb
    exact ⟨i2, j2, k2, hi, hj, hk, hb.1.1.1, hb.1.1.2, hb.1.2, hb.2⟩
  · rintro ⟨i2, j2, k2, hi, hj, hk, hn1, hn2, hn3, hm⟩
    exact ⟨i2, j2, k2, hi, hj, hk, by simp [hn1, hn2, hn3, hm]⟩

theorem adjacencyOverlap_eq_true_iff {h w d : Nat}
    {m1 m2 : Nat → Nat → Nat → Bool} :
    adjacencyOverlap h w d m1 m2 = true ↔
      ∃ p q : Nat × Nat × Nat, inBounds h w d p ∧ inBounds h w d q ∧
        near p.1 q.1 = true ∧ near p.2.1 q.2.1 = true ∧
        near p.2.2 q.2.2 = true ∧
        m1 p.1 p.2.1 p.2.2 = true ∧ m2 q.1 q.2.1 q.2.2 = true := by
  unfold adjacencyOverlap
  rw [anyVox_eq_true_iff]
  constructor
  · rintro ⟨i, j, k, hi, hj, hk, hb⟩
    simp only [Bool.and_eq_true] at hb
    obtain ⟨hdil, hm2⟩ := hb
    obtain ⟨i2, j2, k2, hi2, hj2, hk2, hn1, hn2, hn3, hm1⟩ :=
      binary_dilation_eq_true_iff.mp hdil
    refine ⟨(i2, j2, k2), (i, j, k), ⟨hi2, hj2, hk2⟩, ⟨hi, hj, hk⟩, ?_, ?_, ?_, hm1, hm2⟩
    · exact (near_symm i i2) ▸ hn1
    · exact (near_symm j j2) ▸ hn2
    · exact (near_symm k k2) ▸ hn3
  · rintro ⟨⟨p1, p2, p3⟩, ⟨q1, q2, q3⟩, ⟨hp1, hp2, hp3⟩, ⟨hq1, hq2, hq3⟩,
      hn1, hn2, hn3, hm1, hm2⟩
    refine ⟨q1, q2, q3, hq1, hq2, hq3, ?_⟩
    have hdil : binary_dilation h w d m1 q1 q2 q3 = true :=
      binary_dilation_eq_true_iff.mpr
        ⟨p1, p2, p3, hp1, hp2, hp3,
          (near_symm q1 p1) ▸ hn1, (near_symm q2 p2) ▸ hn2,
          (near_symm q3 p3) ▸ hn3, hm1⟩
    simp [hdil, hm2]

theorem codeMask_eq_true_iff {v : Vol Int} {idx : Nat} {i j k : Nat} :
    codeMask v idx i j k = true ↔ v.val i j k = (idx : Int) := by
  simp [codeMask]

theorem check_structured_eq {img : CategoricalImage} {c1 c2 : String}
    {i1 i2 : Nat} (h1 : categoryToIndex img.categories c1 = some i1)
    (h2 : categoryToIndex img.categories c2 = some i2) :
    check_category_adjacency (.structured img) c1 c2 none =
      (if !anyVox img.vol.h img.vol.w img.vol.d (codeMask img.vol i1)
          || !anyVox img.vol.h img.vol.w img.vol.d (codeMask img.vol i2) then
        .ok false
      else
        .ok (adjacencyOverlap img.vol.h img.vol.w img.vol.d
          (codeMask img.vol i1) (codeMask img.vol i2))) := by
  simp [check_category_adjacency, CategoricalImage.get_mask, h1, h2]

theorem adjacencyOverlap_comm {h w d : Nat} {m1 m2 : Nat → Nat → Nat → Bool} :
    adjacencyOverlap h w d m1 m2 = adjacencyOverlap h w d m2 m1 := by
  apply boolEqOfIff
  rw [adjacencyOverlap_eq_true_iff, adjacencyOverlap_eq_true_iff]
  constructor
  · rintro ⟨p, q, hp, hq, hn1, hn2, hn3, hm1, hm2⟩
    refine ⟨q, p, hq, hp, ?_, ?_, ?_, hm2, hm1⟩
    · rw [near_symm]; exact hn1
    · rw [near_symm]; exact hn2
    · rw [near_symm]; exact hn3
  · rintro ⟨p, q, hp, hq, hn1, hn2, hn3, hm1, hm2⟩
    refine ⟨q, p, hq, hp, ?_, ?_, ?_, hm2, hm1⟩
    · rw [near_symm]; exact hn1
    · rw [near_symm]; exact hn2
    · rw [near_symm]; exact hn3

/-- C7: a call through the legacy raw-array entry point that omits the
code-to-name mapping raises the distinct `MissingMapping` error and
produces no boolean result. -/
theorem legacy_missing_mapping_error (data : Vol Int) (c1 c2 : String) :
    check_category_adjacency (.raw data) c1 c2 none =
      .error .missingMapping := rfl

/-- C3: when either of the two resolvable categories occupies zero voxels,
the adjacency check returns the normal result `false` rather than an error. -/
theorem check_adjacency_zero_voxels (img : CategoricalImage) (c1 c2 : String)
    (i1 i2 : Nat) (hv : Valid img)
    (h1 : categoryToIndex img.categories c1 = some i1)
    (h2 : categoryToIndex img.categories c2 = some i2)
    (hzero : img.count_voxels c1 = .ok 0 ∨ img.count_voxels c2 = .ok 0) :
    check_category_adjacency (.structured img) c1 c2 none = .ok false := by
  rw [check_structured_eq h1 h2]
  rcases hzero with hz | hz
  · have hcnt : countVox img.vol.h img.vol.w img.vol.d (codeMask img.vol i1) = 0 := by
      simpa [CategoricalImage.count_voxels, h1] using hz
    rw [countVox_eq_zero_iff.mp hcnt]
    simp
  · have hcnt : countVox img.vol.h img.vol.w img.vol.d (codeMask img.vol i2) = 0 := by
      simpa [CategoricalImage.count_voxels, h2] using hz
    rw [countVox_eq_zero_iff.mp hcnt]
    simp

/-- C10: checking a category against itself returns `true` whenever the
category occupies at least one voxel, even if its voxels are pairwise
non-adjacent, because the one-step dilation contains the original mask. -/
theorem check_adjacency_self (img : CategoricalImage) (a : String)
    (hv : Valid img) (hocc : img.has_category a = true) :
    check_category_adjacency (.structured img) a a none = .ok true := by
  cases hidx : categoryToIndex img.categories a with
  | none => simp [CategoricalImage.has_category, hidx] at hocc
  | some idx =>
    have hany : anyVox img.vol.h img.vol.w img.vol.d (codeMask img.vol idx) = true := by
      simpa [CategoricalImage.has_category, hidx] using hocc
    rw [check_structured_eq hidx hidx, hany]
    obtain ⟨i, j, k, hi, hj, hk, hm⟩ := anyVox_eq_true_iff.mp hany
    have hov : adjacencyOverlap img.vol.h img.vol.w img.vol.d
        (codeMask img.vol idx) (codeMask img.vol idx) = true :=
      adjacencyOverlap_eq_true_iff.mpr
        ⟨(i, j, k), (i, j, k), ⟨hi, hj, hk⟩, ⟨hi, hj, hk⟩,
          near_refl i, near_refl j, near_refl k, hm, hm⟩
    rw [hov]
    simp

/-- C2: the adjacency check is symmetric in its two category names whenever
both resolve, despite the asymmetric implementation that dilates only the
first mask. -/
theorem check_adjacency_symm (img : CategoricalImage) (c1 c2 : String)
    (i1 i2 : Nat) (hv : Valid img)
    (h1 : categoryToIndex img.categories c1 = some i1)
    (h2 : categoryToIndex img.categories c2 = some i2) :
    check_category_adjacency (.structured img) c1 c2 none =
      check_category_adjacency (.structured img) c2 c1 none := by
  rw [check_structured_eq h1 h2, check_structured_eq h2 h1]
  cases hA : anyVox img.vol.h img.vol.w img.vol.d (codeMask img.vol i1) <;>
    cases hB : anyVox img.vol.h img.vol.w img.vol.d (codeMask img.vol i2) <;>
      simp [hA, hB]
  exact adjacencyOverlap_comm

/-- A validly constructible single-voxel volume whose only category "a"
occupies its one voxel. -/
def imgSingle : CategoricalImage :=
  ⟨⟨1, 1, 1, fun _ _ _ => 0⟩, ["a"]⟩

/-- C1 counterexample: on the single-voxel volume the pair of names
("a", "a") both resolve, the check returns `true`, yet no voxel carrying
the code of the first name is a 26-neighbor (a *distinct* in-bounds
position within 1 on every axis) of a voxel carrying the code of the
second name.  So the claimed equivalence fails when the two names
coincide. -/
theorem check_adjacency_neighbor_claim_false :
    Valid imgSingle ∧
    categoryToIndex imgSingle.categories "a" = some 0 ∧
    check_category_adjacency (.structured imgSingle) "a" "a" none = .ok true ∧
    ¬ ∃ p q : Nat × Nat × Nat,
        inBounds imgSingle.vol.h imgSingle.vol.w imgSingle.vol.d p ∧
        inBounds imgSingle.vol.h imgSingle.vol.w imgSingle.vol.d q ∧
        neighbor26 p q ∧
        imgSingle.vol.val p.1 p.2.1 p.2.2 = ((0 : Nat) : Int) ∧
        imgSingle.vol.val q.1 q.2.1 q.2.2 = ((0 : Nat) : Int) := by
  refine ⟨rfl, rfl, rfl, ?_⟩
  rintro ⟨⟨p1, p2, p3⟩, ⟨q1, q2, q3⟩, ⟨hp1, hp2, hp3⟩, ⟨hq1, hq2, hq3⟩,
    ⟨hne, _, _, _⟩, _, _⟩
  apply hne
  have e1 : p1 = 0 := Nat.lt_one_iff.mp hp1
  have e2 : p2 = 0 := Nat.lt_one_iff.mp hp2
  have e3 : p3 = 0 := Nat.lt_one_iff.mp hp3
  have f1 : q1 = 0 := Nat.lt_one_iff.mp hq1
  have f2 : q2 = 0 := Nat.lt_one_iff.mp hq2
  have f3 : q3 = 0 := Nat.lt_one_iff.mp hq3
  subst e1; subst e2; subst e3; subst f1; subst f2; subst f3
  rfl

/-- C1 (amended): for two *distinct* category names that both resolve to
masks, the structured adjacency check returns `true` exactly when some
voxel carrying the first name's code is a 26-neighbor of some voxel
carrying the second name's code — distinct in-bounds positions differing
by at most 1 on each axis, with no wrap-around and no out-of-bounds
neighbours. -/
theorem check_adjacency_iff_neighbor (img : CategoricalImage) (c1 c2 : String)
    (i1 i2 : Nat) (hv : Valid img) (hne : c1 ≠ c2)
    (h1 : categoryToIndex img.categories c1 = some i1)
    (h2 : categoryToIndex img.categories c2 = some i2) :
    check_category_adjacency (.structured img) c1 c2 none = .ok true ↔
      ∃ p q : Nat × Nat × Nat,
        inBounds img.vol.h img.vol.w img.vol.d p ∧
        inBounds img.vol.h img.vol.w img.vol.d q ∧
        neighbor26 p q ∧
        img.vol.val p.1 p.2.1 p.2.2 = (i1 : Int) ∧
        img.vol.val q.1 q.2.1 q.2.2 = (i2 : Int) := by
  have hii : i1 ≠ i2 := categoryToIndex_inj h1 h2 hne
  rw [check_structured_eq h1 h2]
  cases hA : anyVox img.vol.h img.vol.w img.vol.d (codeMask img.vol i1) with
  | false =>
    simp only [hA, Bool.not_false, Bool.true_or, if_true]
    constructor
    · intro hok
      exact absurd (Except.ok.injEq _ _ ▸ hok) Bool.false_ne_true
    · rintro ⟨p, q, hp, hq, _, e1, _⟩
      have : anyVox img.vol.h img.vol.w img.vol.d (codeMask img.vol i1) = true :=
        anyVox_eq_true_iff.mpr
          ⟨p.1, p.2.1, p.2.2, hp.1, hp.2.1, hp.2.2, codeMask_eq_true_iff.mpr e1⟩
      rw [hA] at this
      exact absurd this Bool.false_ne_true
  | true =>
    cases hB : anyVox img.vol.h img.vol.w img.vol.d (codeMask img.vol i2) with
    | false =>
      simp only [hA, hB, Bool.not_false, Bool.not_true, Bool.or_true, if_true]
      constructor
      · intro hok
        exact absurd (Except.ok.injEq _ _ ▸ hok) Bool.false_ne_true
      · rintro ⟨p, q, hp, hq, _, _, e2⟩
        have : anyVox img.vol.h img.vol.w img.vol.d (codeMask img.vol i2) = true :=
          anyVox_eq_true_iff.mpr
            ⟨q.1, q.2.1, q.2.2, hq.1, hq.2.1, hq.2.2, codeMask_eq_true_iff.mpr e2⟩
        rw [hB] at this
        exact absurd this Bool.false_ne_true
    | true =>
      simp only [hA, hB, Bool.not_true, Bool.or_self, Bool.false_eq_true,
        if_false, Except.ok.injEq]
      rw [adjacencyOverlap_eq_true_iff]
      constructor
      · rintro ⟨p, q, hp, hq, hn1, hn2, hn3, hm1, hm2⟩
        have e1 := codeMask_eq_true_iff.mp hm1
        have e2 := codeMask_eq_true_iff.mp hm2
        refine ⟨p, q, hp, hq, ⟨?_, hn1, hn2, hn3⟩, e1, e2⟩
        rintro rfl
        rw [e1] at e2
        exact hii (Nat.cast_injective e2)
      · rintro ⟨p, q, hp, hq, ⟨_, hn1, hn2, hn3⟩, e1, e2⟩
        exact ⟨p, q, hp, hq, hn1, hn2, hn3,
          codeMask_eq_true_iff.mpr e1, codeMask_eq_true_iff.mpr e2⟩

/-- C6: `has_category` is `false` both for a name outside the vocabulary and
for a known name with zero occupying voxels, and `true` exactly for a known
name with at least one occupying voxel; `get_mask` on a name outside the
vocabulary instead raises `UnknownCategory`. -/
theorem has_category_get_mask_spec (img : CategoricalImage) (c : String)
    (hv : Valid img) :
    (img.has_category c = true ↔
      ∃ idx, categoryToIndex img.categories c = some idx ∧
        ∃ i j k, i < img.vol.h ∧ j < img.vol.w ∧ k < img.vol.d ∧
          img.vol.val i j k = (idx : Int)) ∧
    (categoryToIndex img.categories c = none →
      img.get_mask c = .error .unknownCategory) := by
  constructor
  · cases hidx : categoryToIndex img.categories c with
    | none =>
      simp [CategoricalImage.has_category, hidx]
    | some idx =>
      simp only [CategoricalImage.has_category, hidx]
      rw [anyVox_eq_true_iff]
      constructor
      · rintro ⟨i, j, k, hi, hj, hk, hm⟩
        exact ⟨idx, rfl, i, j, k, hi, hj, hk, codeMask_eq_true_iff.mp hm⟩
      · rintro ⟨idx2, hidx2, i, j, k, hi, hj, hk, he⟩
        cases hidx2
        exact ⟨i, j, k, hi, hj, hk, codeMask_eq_true_iff.mpr he⟩
  · intro hnone
    simp [CategoricalImage.get_mask, hnone]

theorem foldl_max_mem (l : List Int) :
    ∀ a : Int, l.foldl max a = a ∨ l.foldl max a ∈ l := by
  induction l with
  | nil => intro a; exact Or.inl rfl
  | cons y ys ih =>
    intro a
    have hfold : (y :: ys).foldl max a = ys.foldl max (max a y) := rfl
    rw [hfold]
    rcases ih (max a y) with hcase | hcase
    · rw [hcase]
      rcases max_choice a y with hm | hm
      · exact Or.inl hm
      · exact Or.inr (by rw [hm]; exact List.mem_cons_self y ys)
    · exact Or.inr (List.mem_cons_of_mem y hcase)

theorem npMax_mem {l : List Int} (hne : l ≠ []) : npMax l ∈ l := by
  cases l with
  | nil => exact absurd rfl hne
  | cons y ys =>
    rcases foldl_max_mem ys y with hcase | hcase
    · rw [npMax, hcase]; exact List.mem_cons_self y ys
    · rw [npMax]; exact List.mem_cons_of_mem y hcase

/-- A 1×1×2 integer volume holding the values -1 and 1. -/
def volNegOne : Vol Int := ⟨1, 1, 2, fun _ _ k => if k = 0 then -1 else 1⟩

/-- C5 counterexample: with the one-name vocabulary (so n = 1) the volume
holds the value 1 = n, yet construction fails with `NegativeValue` — the
negative-value check fires before the range check — not `ValueOutOfRange`
as the claim states. -/
theorem mkImage_value_eq_n_claim_false :
    (∃ i j k, i < volNegOne.h ∧ j < volNegOne.w ∧ k < volNegOne.d ∧
        volNegOne.val i j k = ((["a"] : List String).length : Int)) ∧
    mkImage volNegOne ["a"] = .error .negativeValue ∧
    VolError.negativeValue ≠ VolError.valueOutOfRange :=
  ⟨⟨0, 0, 1, by decide, by decide, by decide, by decide⟩, rfl, by decide⟩

/-- C5 (amended): for a 3D non-empty integer array *containing no negative
value* and a duplicate-free non-empty category list of length n,
construction fails with `ValueOutOfRange` when some value equals n, while
construction succeeds when every value lies in [0, n-1]. -/
theorem mkImage_range_check (data : Vol Int) (cats : List String)
    (hsz : data.size ≠ 0) (hnil : cats ≠ []) (hnd : cats.Nodup) :
    ((∀ i j k, i < data.h → j < data.w → k < data.d → 0 ≤ data.val i j k) →
      (∃ i j k, i < data.h ∧ j < data.w ∧ k < data.d ∧
        data.val i j k = (cats.length : Int)) →
      mkImage data cats = .error .valueOutOfRange) ∧
    ((∀ i j k, i < data.h → j < data.w → k < data.d →
        0 ≤ data.val i j k ∧ data.val i j k < (cats.length : Int)) →
      ∃ img, mkImage data cats = .ok img) := by
  have hlen : ¬(cats.length = 0) := fun h0 => hnil (List.length_eq_zero.mp h0)
  have hdup : hasDuplicates cats = false := hasDuplicates_eq_false_iff.mpr hnd
  have hvne : data.valsList ≠ [] := by
    obtain ⟨hh, hw, hd⟩ := size_ne_zero_pos hsz
    exact List.ne_nil_of_mem (mem_valsList.mpr ⟨0, 0, 0, hh, hw, hd, rfl⟩)
  constructor
  · intro hnonneg hex
    obtain ⟨i, j, k, hi, hj, hk, hval⟩ := hex
    have hmin : ¬(npMin data.valsList < 0) := by
      apply not_lt.mpr
      apply le_npMin hvne
      intro x hx
      obtain ⟨i2, j2, k2, hi2, hj2, hk2, hval2⟩ := mem_valsList.mp hx
      rw [← hval2]
      exact hnonneg i2 j2 k2 hi2 hj2 hk2
    have hmax : (cats.length : Int) ≤ npMax data.valsList := by
      rw [← hval]
      exact mem_le_npMax (mem_valsList.mpr ⟨i, j, k, hi, hj, hk, rfl⟩)
    simp [mkImage, validateImage, hsz, hlen, hdup, hmin, hmax]
  · intro hall
    have hmin : ¬(npMin data.valsList < 0) := by
      apply not_lt.mpr
      apply le_npMin hvne
      intro x hx
      obtain ⟨i2, j2, k2, hi2, hj2, hk2, hval2⟩ := mem_valsList.mp hx
      rw [← hval2]
      exact (hall i2 j2 k2 hi2 hj2 hk2).1
    have hmax : ¬((cats.length : Int) ≤ npMax data.valsList) := by
      apply not_le.mpr
      obtain ⟨i2, j2, k2, hi2, hj2, hk2, hval2⟩ :=
        mem_valsList.mp (npMax_mem hvne)
      rw [← hval2]
      exact (hall i2 j2 k2 hi2 hj2 hk2).2
    exact ⟨⟨data, cats⟩, by simp [mkImage, validateImage, hsz, hlen, hdup, hmin, hmax]⟩

theorem mem_insertAsc {x y : String} {l : List String} :
    x ∈ insertAsc y l ↔ x = y ∨ x ∈ l := by
  induction l with
  | nil => simp [insertAsc]
  | cons z zs ih =>
    rw [insertAsc]
    by_cases hlt : y.data < z.data
    · rw [if_pos hlt]
      simp [List.mem_cons]
    · rw [if_neg hlt, List.mem_cons, ih, List.mem_cons]
      tauto

theorem mem_sortAsc {x : String} {l : List String} :
    x ∈ sortAsc l ↔ x ∈ l := by
  induction l with
  | nil => simp [sortAsc]
  | cons y ys ih =>
    show x ∈ insertAsc y (sortAsc ys) ↔ x ∈ y :: ys
    rw [mem_insertAsc, ih, List.mem_cons]

theorem nodup_insertAsc {y : String} {l : List String}
    (hy : y ∉ l) (hl : l.Nodup) : (insertAsc y l).Nodup := by
  induction l with
  | nil => simp [insertAsc]
  | cons z zs ih =>
    rw [insertAsc]
    by_cases hlt : y.data < z.data
    · rw [if_pos hlt]
      exact List.nodup_cons.mpr ⟨hy, hl⟩
    · rw [if_neg hlt]
      have hyz : y ≠ z := fun he => hy (he ▸ List.mem_cons_self z zs)
      have hyzs : y ∉ zs := fun hm => hy (List.mem_cons_of_mem z hm)
      obtain ⟨hz, hzs⟩ := List.nodup_cons.mp hl
      refine List.nodup_cons.mpr ⟨?_, ih hyzs hzs⟩
      intro hmem
      rcases mem_insertAsc.mp hmem with he | hm
      · exact hyz he.symm
      · exact hz hm

theorem nodup_sortAsc {l : List String} (hl : l.Nodup) : (sortAsc l).Nodup := by
  induction l with
  | nil => simp [sortAsc]
  | cons y ys ih =>
    obtain ⟨hy, hys⟩ := List.nodup_cons.mp hl
    show (insertAsc y (sortAsc ys)).Nodup
    exact nodup_insertAsc (fun hm => hy (mem_sortAsc.mp hm)) (ih hys)

theorem mem_npUnique {L : Vol String} {x : String} :
    x ∈ npUnique L ↔ x ∈ L.valsList := by
  unfold npUnique
  rw [mem_sortAsc, List.mem_dedup]

theorem nodup_npUnique (L : Vol String) : (npUnique L).Nodup :=
  nodup_sortAsc (List.nodup_dedup _)

theorem getD_indexOf {l : List String} {x : String} (hx : x ∈ l) :
    l.getD (l.indexOf x) "" = x := by
  have hlt : l.indexOf x < l.length := List.indexOf_lt_length.mpr hx
  rw [List.getD_eq_getElem?_getD, List.getElem?_eq_getElem hlt, Option.getD_some]
  exact List.getElem_indexOf hlt

theorem validateImage_ok_of {data : Vol Int} {cats : List String}
    (hsz : ¬(data.size = 0)) (hlen : ¬(cats.length = 0))
    (hdup : hasDuplicates cats = false)
    (hvals : ∀ x ∈ data.valsList, 0 ≤ x ∧ x < (cats.length : Int)) :
    validateImage data cats = .ok () := by
  have hvne : data.valsList ≠ [] := by
    obtain ⟨hh, hw, hd⟩ := size_ne_zero_pos hsz
    exact List.ne_nil_of_mem (mem_valsList.mpr ⟨0, 0, 0, hh, hw, hd, rfl⟩)
  have hmin : ¬(npMin data.valsList < 0) :=
    not_lt.mpr (le_npMin hvne (fun x hx => (hvals x hx).1))
  have hmax : ¬((cats.length : Int) ≤ npMax data.valsList) :=
    not_le.mpr ((hvals _ (npMax_mem hvne)).2)
  simp [validateImage, hsz, hlen, hdup, hmin, hmax]

/-- C4: decoding the volume built from a well-formed non-empty 3D
string-label array yields the original labels again, elementwise and with
the same shape. -/
theorem from_labels_get_labels_roundtrip (L : Vol String)
    (hh : 0 < L.h) (hw : 0 < L.w) (hd : 0 < L.d) :
    ∃ img, CategoricalImage.from_labels L = .ok img ∧
      img.get_labels.h = L.h ∧ img.get_labels.w = L.w ∧
      img.get_labels.d = L.d ∧
      ∀ i j k, i < L.h → j < L.w → k < L.d →
        img.get_labels.val i j k = L.val i j k := by
  have hsz : ¬(L.size = 0) := by
    have hpos : 0 < L.size := Nat.mul_pos (Nat.mul_pos hh hw) hd
    omega
  have hmemcats : ∀ i j k, i < L.h → j < L.w → k < L.d →
      L.val i j k ∈ npUnique L := fun i j k hi hj hk =>
    mem_npUnique.mpr (mem_valsList.mpr ⟨i, j, k, hi, hj, hk, rfl⟩)
  refine ⟨⟨⟨L.h, L.w, L.d,
    fun i j k => ((npUnique L).indexOf (L.val i j k) : Int)⟩, npUnique L⟩,
    ?_, rfl, rfl, rfl, ?_⟩
  · have hval : validateImage
        ⟨L.h, L.w, L.d, fun i j k => ((npUnique L).indexOf (L.val i j k) : Int)⟩
        (npUnique L) = .ok () := by
      apply validateImage_ok_of
      · exact hsz
      · intro h0
        have : npUnique L ≠ [] :=
          List.ne_nil_of_mem (hmemcats 0 0 0 hh hw hd)
        exact this (List.length_eq_zero.mp h0)
      · exact hasDuplicates_eq_false_iff.mpr (nodup_npUnique L)
      · intro x hx
        obtain ⟨i, j, k, hi, hj, hk, hvx⟩ := mem_valsList.mp hx
        rw [← hvx]
        constructor
        · exact Int.natCast_nonneg _
        · exact Int.ofNat_lt.mpr
            (List.indexOf_lt_length.mpr (hmemcats i j k hi hj hk))
    show (if L.size = 0 then Except.error VolError.emptyVolume
      else mkImage
        ⟨L.h, L.w, L.d, fun i j k => ((npUnique L).indexOf (L.val i j k) : Int)⟩
        (npUnique L)) = _
    rw [if_neg hsz]
    unfold mkImage
    rw [hval]
  · intro i j k hi hj hk
    show (npUnique L).getD
      (((npUnique L).indexOf (L.val i j k) : Int)).toNat "" = L.val i j k
    rw [Int.toNat_ofNat]
    exact getD_indexOf (hmemcats i j k hi hj hk)

theorem sum_map_add_nat {α : Type} (l : List α) (f g : α → Nat) :
    (l.map (fun x => f x + g x)).sum = (l.map f).sum + (l.map g).sum := by
  induction l with
  | nil => rfl
  | cons x xs ih =>
    simp only [List.map_cons, List.sum_cons, ih]
    omega

theorem indicator_sum {v : Nat} (n : Nat) (hv : v < n) :
    ((List.range n).map
      (fun (i : Nat) => if ((v : Int) == (i : Int)) = true then 1 else 0)).sum = 1 := by
  induction n with
  | zero => omega
  | succ m ih =>
    rw [List.range_succ, List.map_append, List.sum_append]
    by_cases hvm : v = m
    · subst hvm
      have hzero : ((List.range v).map
          (fun (i : Nat) => if ((v : Int) == (i : Int)) = true then 1 else 0)).sum = 0 := by
        apply List.sum_eq_zero
        intro y hy
        rw [List.mem_map] at hy
        obtain ⟨i, hi, hyi⟩ := hy
        rw [List.mem_range] at hi
        rw [← hyi]
        have hne : ¬(((v : Int) == (i : Int)) = true) := by
          simp only [beq_iff_eq, Nat.cast_inj]
          omega
        rw [if_neg hne]
      rw [hzero]
      simp
    · have hvm2 : v < m := by omega
      rw [ih hvm2]
      have hne : ¬(((v : Int) == (m : Int)) = true) := by
        simp only [beq_iff_eq, Nat.cast_inj]
        omega
      simp [hne, hvm]

theorem sum_countP_classes {α : Type} (l : List α) (f : α → Int) (n : Nat)
    (hval : ∀ x ∈ l, ∃ v, v < n ∧ f x = (v : Int)) :
    ((List.range n).map
      (fun (i : Nat) => l.countP (fun x => f x == (i : Int)))).sum
      = l.length := by
  induction l with
  | nil => simp
  | cons x xs ih =>
    obtain ⟨v, hv, hfx⟩ := hval x (List.mem_cons_self x xs)
    have hxs : ∀ y ∈ xs, ∃ v, v < n ∧ f y = (v : Int) :=
      fun y hy => hval y (List.mem_cons_of_mem x hy)
    simp only [List.countP_cons]
    rw [sum_map_add_nat (List.range n)
      (fun (i : Nat) => xs.countP (fun x2 => f x2 == (i : Int)))
      (fun (i : Nat) => if (f x == (i : Int)) = true then 1 else 0)]
    rw [ih hxs]
    have hind : ((List.range n).map
        (fun (i : Nat) => if (f x == (i : Int)) = true then 1 else 0)).sum = 1 := by
      rw [hfx]
      exact indicator_sum n hv
    rw [hind, List.length_cons]

theorem length_flatMap_const {beta : Type} (w d : Nat) (g : Nat → List beta)
    (hg : ∀ j, (g j).length = d) :
    ((List.range w).flatMap g).length = w * d := by
  induction w with
  | zero => simp
  | succ m ih =>
    rw [List.range_succ, List.flatMap_append, List.length_append, ih]
    simp [hg, Nat.succ_mul]

theorem length_allPositions (h w d : Nat) :
    (allPositions h w d).length = h * w * d := by
  unfold allPositions
  rw [Nat.mul_assoc]
  apply length_flatMap_const
  intro i
  apply length_flatMap_const
  intro j
  simp

/-- C8: the per-category voxel counts sum to the total voxel count, and
`get_category_stats` lists exactly the vocabulary names, each mapped to the
value `count_voxels` returns for it (zero included). -/
theorem category_stats_spec (img : CategoricalImage) (hv : Valid img) :
    ((img.get_category_stats.map (fun e => e.2)).sum
        = img.vol.h * img.vol.w * img.vol.d) ∧
    (img.get_category_stats.map (fun e => e.1) = img.categories) ∧
    (∀ c ∈ img.categories, ∃ cnt, img.count_voxels c = .ok cnt ∧
        (c, cnt) ∈ img.get_category_stats) := by
  obtain ⟨hh, hw, hd, hnil, hnd, hrange⟩ := hv.spec
  have hcnt : ∀ c ∈ img.categories,
      img.count_voxels c = .ok (countVox img.vol.h img.vol.w img.vol.d
        (codeMask img.vol (img.categories.indexOf c))) := by
    intro c hc
    have hidx : categoryToIndex img.categories c
        = some (img.categories.indexOf c) := by
      simp [categoryToIndex, hc]
    simp [CategoricalImage.count_voxels, hidx]
  refine ⟨?_, ?_, ?_⟩
  · have hmap : img.get_category_stats.map (fun e => e.2)
        = img.categories.map (fun c =>
            countVox img.vol.h img.vol.w img.vol.d
              (codeMask img.vol (img.categories.indexOf c))) := by
      unfold CategoricalImage.get_category_stats
      rw [List.map_map]
      apply List.map_congr_left
      intro c hc
      simp only [Function.comp]
      rw [hcnt c hc]
    rw [hmap]
    have hrw : img.categories.map (fun c =>
          countVox img.vol.h img.vol.w img.vol.d
            (codeMask img.vol (img.categories.indexOf c)))
        = (List.range img.categories.length).map (fun i =>
            countVox img.vol.h img.vol.w img.vol.d (codeMask img.vol i)) := by
      apply List.ext_getElem
      · simp
      · intro i h1 h2
        simp only [List.getElem_map, List.getElem_range]
        rw [List.indexOf_getElem hnd i (by simpa using h1)]
    rw [hrw]
    have hclasses : ∀ p ∈ allPositions img.vol.h img.vol.w img.vol.d,
        ∃ v, v < img.categories.length ∧
          img.vol.val p.1 p.2.1 p.2.2 = (v : Int) := by
      intro p hp
      obtain ⟨hp1, hp2, hp3⟩ := mem_allPositions.mp hp
      obtain ⟨hge, hlt⟩ := hrange p.1 p.2.1 p.2.2 hp1 hp2 hp3
      refine ⟨(img.vol.val p.1 p.2.1 p.2.2).toNat, ?_, ?_⟩
      · have hcast : ((img.vol.val p.1 p.2.1 p.2.2).toNat : Int)
            = img.vol.val p.1 p.2.1 p.2.2 := Int.toNat_of_nonneg hge
        have := hcast ▸ hlt
        exact_mod_cast this
      · exact (Int.toNat_of_nonneg hge).symm
    have := sum_countP_classes (allPositions img.vol.h img.vol.w img.vol.d)
      (fun p => img.vol.val p.1 p.2.1 p.2.2) img.categories.length hclasses
    rw [← length_allPositions img.vol.h img.vol.w img.vol.d, ← this]
    apply congrArg
    apply List.map_congr_left
    intro i hi
    rfl
  · unfold CategoricalImage.get_category_stats
    rw [List.map_map]
    show List.map (fun (c : String) => c) img.categories = img.categories
    exact List.map_id img.categories
  · intro c hc
    refine ⟨countVox img.vol.h img.vol.w img.vol.d
      (codeMask img.vol (img.categories.indexOf c)), hcnt c hc, ?_⟩
    unfold CategoricalImage.get_category_stats
    apply List.mem_map.mpr
    refine ⟨c, hc, ?_⟩
    rw [hcnt c hc]

/-! ### Heap model for the defensive copy (`astype(np.int32, copy=True)`) -/

/-- A heap of numpy integer arrays: cell index = array identity.  In-place
mutation replaces the contents of one cell; distinct cells never alias. -/
structure NpHeap where
  cells : List (Vol Int)

/-- Dereference an array reference. -/
def NpHeap.read (hp : NpHeap) (r : Nat) : Vol Int :=
  hp.cells.getD r ⟨0, 0, 0, fun _ _ _ => 0⟩

/-- In-place mutation of the array in cell `r` (such as `arr[...] = v`). -/
def NpHeap.write (hp : NpHeap) (r : Nat) (v : Vol Int) : NpHeap :=
  ⟨hp.cells.set r v⟩

/-- `self.data.astype(np.int32, copy=True)`: allocate a fresh cell holding
the same contents and return its reference. -/
def NpHeap.copyAlloc (hp : NpHeap) (r : Nat) : NpHeap × Nat :=
  (⟨hp.cells ++ [hp.read r]⟩, hp.cells.length)

/-- A constructed image as stored state: the reference to its private data
cell plus the category vocabulary. -/
structure ImageRef where
  dataRef : Nat
  categories : List String

/-- `CategoricalImage.__post_init__` over the heap: validate the
caller-supplied array, then store a defensive copy in a freshly allocated
cell via `object.__setattr__(self, "data", self.data.astype(np.int32, copy=True))`. -/
def postInitHeap (hp : NpHeap) (r : Nat) (cats : List String) :
    Except VolError (NpHeap × ImageRef) :=
  match validateImage (hp.read r) cats with
  | .error e => .error e
  | .ok _ => .ok ((hp.copyAlloc r).1, ⟨(hp.copyAlloc r).2, cats⟩)

/-- The value-level image an `ImageRef` denotes in a given heap. -/
def ImageRef.toImage (hp : NpHeap) (ref : ImageRef) : CategoricalImage :=
  ⟨hp.read ref.dataRef, ref.categories⟩

theorem read_write_ne {hp : NpHeap} {r s : Nat} {v : Vol Int} (hne : r ≠ s) :
    (hp.write r v).read s = hp.read s := by
  unfold NpHeap.write NpHeap.read
  rw [List.getD_eq_getElem?_getD, List.getD_eq_getElem?_getD,
    List.getElem?_set_ne hne]

/-- C9: the constructor stores a defensive copy of the caller-supplied
array, so mutating the caller's array cell after construction changes no
observable of the constructed volume: the denoted image value, its shape,
masks, counts, stats, labels, `has_category`, and adjacency answers are all
unchanged. -/
theorem copy_isolation (hp : NpHeap) (r : Nat) (cats : List String)
    (hp2 : NpHeap) (ref : ImageRef) (mutated : Vol Int) (c1 c2 : String)
    (hr : r < hp.cells.length)
    (hmk : postInitHeap hp r cats = .ok (hp2, ref)) :
    ImageRef.toImage (hp2.write r mutated) ref = ImageRef.toImage hp2 ref ∧
    (ImageRef.toImage (hp2.write r mutated) ref).shape
      = (ImageRef.toImage hp2 ref).shape ∧
    (ImageRef.toImage (hp2.write r mutated) ref).get_mask c1
      = (ImageRef.toImage hp2 ref).get_mask c1 ∧
    (ImageRef.toImage (hp2.write r mutated) ref).count_voxels c1
      = (ImageRef.toImage hp2 ref).count_voxels c1 ∧
    (ImageRef.toImage (hp2.write r mutated) ref).get_category_stats
      = (ImageRef.toImage hp2 ref).get_category_stats ∧
    (ImageRef.toImage (hp2.write r mutated) ref).get_labels
      = (ImageRef.toImage hp2 ref).get_labels ∧
    (ImageRef.toImage (hp2.write r mutated) ref).has_category c1
      = (ImageRef.toImage hp2 ref).has_category c1 ∧
    check_category_adjacency
        (.structured (ImageRef.toImage (hp2.write r mutated) ref)) c1 c2 none
      = check_category_adjacency
        (.structured (ImageRef.toImage hp2 ref)) c1 c2 none := by
  unfold postInitHeap at hmk
  split at hmk
  next => exact Except.noConfusion hmk
  next hval =>
    injection hmk with hpair
    have hhp2 : hp2 = (hp.copyAlloc r).1 := (congrArg Prod.fst hpair).symm
    have href : ref = ⟨(hp.copyAlloc r).2, cats⟩ := (congrArg Prod.snd hpair).symm
    subst hhp2
    subst href
    have hne2 : r ≠ hp.cells.length := Nat.ne_of_lt hr
    have hread : (NpHeap.write ⟨hp.cells ++ [hp.read r]⟩ r mutated).read
          hp.cells.length
        = NpHeap.read ⟨hp.cells ++ [hp.read r]⟩ hp.cells.length :=
      read_write_ne hne2
    have hmain : ImageRef.toImage
        (NpHeap.write (hp.copyAlloc r).1 r mutated) ⟨(hp.copyAlloc r).2, cats⟩
        = ImageRef.toImage (hp.copyAlloc r).1 ⟨(hp.copyAlloc r).2, cats⟩ :=
      congrArg (fun v => CategoricalImage.mk v cats) hread
    exact ⟨hmain, by rw [hmain], by rw [hmain], by rw [hmain], by rw [hmain],
      by rw [hmain], by rw [hmain], by rw [hmain]⟩

/-! ### Concrete witnesses -/

/-- A validly constructible 1×1×2 volume with categories "a" (voxel 0) and
"b" (voxel 1): the two voxels are face-adjacent. -/
def imgPair : CategoricalImage :=
  ⟨⟨1, 1, 2, fun _ _ k => if k = 0 then 0 else 1⟩, ["a", "b"]⟩

/-- A validly constructible single-voxel volume whose vocabulary contains a
category "green" occupying zero voxels. -/
def imgBG : CategoricalImage :=
  ⟨⟨1, 1, 1, fun _ _ _ => 0⟩, ["bg", "green"]⟩

/-- Witness for the amended C1 theorem at the two-voxel volume. -/
theorem check_adjacency_iff_neighbor_witness :
    check_category_adjacency (.structured imgPair) "a" "b" none = .ok true ↔
      ∃ p q : Nat × Nat × Nat,
        inBounds imgPair.vol.h imgPair.vol.w imgPair.vol.d p ∧
        inBounds imgPair.vol.h imgPair.vol.w imgPair.vol.d q ∧
        neighbor26 p q ∧
        imgPair.vol.val p.1 p.2.1 p.2.2 = ((0 : Nat) : Int) ∧
        imgPair.vol.val q.1 q.2.1 q.2.2 = ((1 : Nat) : Int) :=
  check_adjacency_iff_neighbor imgPair "a" "b" 0 1 rfl (by decide) rfl rfl

/-- Witness for the C2 theorem at the two-voxel volume. -/
theorem check_adjacency_symm_witness :
    check_category_adjacency (.structured imgPair) "a" "b" none
      = check_category_adjacency (.structured imgPair) "b" "a" none :=
  check_adjacency_symm imgPair "a" "b" 0 1 rfl rfl rfl

/-- Witness for the C3 theorem: "green" occupies zero voxels of `imgBG`. -/
theorem check_adjacency_zero_voxels_witness :
    check_category_adjacency (.structured imgBG) "green" "bg" none
      = .ok false :=
  check_adjacency_zero_voxels imgBG "green" "bg" 1 0 rfl rfl rfl (Or.inl rfl)

/-- Witness for the C4 theorem at a 1×1×2 label array. -/
theorem from_labels_get_labels_roundtrip_witness :
    ∃ img, CategoricalImage.from_labels
        (⟨1, 1, 2, fun _ _ k => if k = 0 then "b" else "a"⟩ : Vol String)
        = .ok img ∧
      img.get_labels.h = 1 ∧ img.get_labels.w = 1 ∧ img.get_labels.d = 2 ∧
      ∀ i j k, i < 1 → j < 1 → k < 2 →
        img.get_labels.val i j k =
          (⟨1, 1, 2, fun _ _ k => if k = 0 then "b" else "a"⟩ : Vol String).val i j k :=
  from_labels_get_labels_roundtrip
    ⟨1, 1, 2, fun _ _ k => if k = 0 then "b" else "a"⟩
    (by decide) (by decide) (by decide)

/-- Witness for the amended C5 theorem at the two-voxel volume. -/
theorem mkImage_range_check_witness :
    ((∀ i j k, i < imgPair.vol.h → j < imgPair.vol.w → k < imgPair.vol.d →
        0 ≤ imgPair.vol.val i j k) →
      (∃ i j k, i < imgPair.vol.h ∧ j < imgPair.vol.w ∧ k < imgPair.vol.d ∧
        imgPair.vol.val i j k = ((["a", "b"] : List String).length : Int)) →
      mkImage imgPair.vol ["a", "b"] = .error .valueOutOfRange) ∧
    ((∀ i j k, i < imgPair.vol.h → j < imgPair.vol.w → k < imgPair.vol.d →
        0 ≤ imgPair.vol.val i j k ∧
          imgPair.vol.val i j k < ((["a", "b"] : List String).length : Int)) →
      ∃ img, mkImage imgPair.vol ["a", "b"] = .ok img) :=
  mkImage_range_check imgPair.vol ["a", "b"] (by decide) (by decide) (by decide)

/-- Witness for the C6 theorem at the two-voxel volume. -/
theorem has_category_get_mask_spec_witness :
    (imgPair.has_category "a" = true ↔
      ∃ idx, categoryToIndex imgPair.categories "a" = some idx ∧
        ∃ i j k, i < imgPair.vol.h ∧ j < imgPair.vol.w ∧ k < imgPair.vol.d ∧
          imgPair.vol.val i j k = (idx : Int)) ∧
    (categoryToIndex imgPair.categories "a" = none →
      imgPair.get_mask "a" = .error .unknownCategory) :=
  has_category_get_mask_spec imgPair "a" rfl

/-- Witness for the C8 theorem at the two-voxel volume. -/
theorem category_stats_spec_witness :
    ((imgPair.get_category_stats.map (fun e => e.2)).sum
        = imgPair.vol.h * imgPair.vol.w * imgPair.vol.d) ∧
    (imgPair.get_category_stats.map (fun e => e.1) = imgPair.categories) ∧
    (∀ c ∈ imgPair.categories, ∃ cnt, imgPair.count_voxels c = .ok cnt ∧
        (c, cnt) ∈ imgPair.get_category_stats) :=
  category_stats_spec imgPair rfl

/-- A one-cell heap holding a single-voxel all-zero array. -/
def heapOne : NpHeap := ⟨[⟨1, 1, 1, fun _ _ _ => 0⟩]⟩

/-- The heap after `heapOne` ran the constructor on cell 0: the defensive
copy lives in the fresh cell 1. -/
def heapTwo : NpHeap :=
  ⟨[⟨1, 1, 1, fun _ _ _ => 0⟩, ⟨1, 1, 1, fun _ _ _ => 0⟩]⟩

/-- A replacement content used to mutate the caller's array in place. -/
def volMut : Vol Int := ⟨1, 1, 1, fun _ _ _ => 5⟩

/-- Witness for the C9 theorem on a concrete one-cell heap. -/
theorem copy_isolation_witness :
    ImageRef.toImage (heapTwo.write 0 volMut) ⟨1, ["a"]⟩
      = ImageRef.toImage heapTwo ⟨1, ["a"]⟩ ∧
    (ImageRef.toImage (heapTwo.write 0 volMut) ⟨1, ["a"]⟩).shape
      = (ImageRef.toImage heapTwo ⟨1, ["a"]⟩).shape ∧
    (ImageRef.toImage (heapTwo.write 0 volMut) ⟨1, ["a"]⟩).get_mask "a"
      = (ImageRef.toImage heapTwo ⟨1, ["a"]⟩).get_mask "a" ∧
    (ImageRef.toImage (heapTwo.write 0 volMut) ⟨1, ["a"]⟩).count_voxels "a"
      = (ImageRef.toImage heapTwo ⟨1, ["a"]⟩).count_voxels "a" ∧
    (ImageRef.toImage (heapTwo.write 0 volMut) ⟨1, ["a"]⟩).get_category_stats
      = (ImageRef.toImage heapTwo ⟨1, ["a"]⟩).get_category_stats ∧
    (ImageRef.toImage (heapTwo.write 0 volMut) ⟨1, ["a"]⟩).get_labels
      = (ImageRef.toImage heapTwo ⟨1, ["a"]⟩).get_labels ∧
    (ImageRef.toImage (heapTwo.write 0 volMut) ⟨1, ["a"]⟩).has_category "a"
      = (ImageRef.toImage heapTwo ⟨1, ["a"]⟩).has_category "a" ∧
    check_category_adjacency
        (.structured (ImageRef.toImage (heapTwo.write 0 volMut) ⟨1, ["a"]⟩))
        "a" "b" none
      = check_category_adjacency
        (.structured (ImageRef.toImage heapTwo ⟨1, ["a"]⟩)) "a" "b" none :=
  copy_isolation heapOne 0 ["a"] heapTwo ⟨1, ["a"]⟩ volMut "a" "b"
    (by decide) rfl

/-- Witness for the C10 theorem at the single-voxel volume. -/
theorem check_adjacency_self_witness :
    check_category_adjacency (.structured imgSingle) "a" "a" none = .ok true :=
  check_adjacency_self imgSingle "a" rfl rfl
